import Mathlib

/-!
Shallow embedding of the node/selection synchronization core of the
gojs-react organization-chart application.

Embedded sources:
* `src/App.tsx` — the `App` component: `nodeDataArray` / `selectedData` /
  `skipsDiagramUpdate` state, the `mapNodeKeyIdx` key-to-index map,
  `refreshNodeIndex`, `handleDiagramEvent` and `handleInputChange`.
* the `SelectionDeleting` diagram listener of the DiagramWrapper file
  (the "clear boss" transaction run when a selected part is deleted).

JavaScript values that occur in this core (record fields, `go.Key` keys)
are numbers, strings, booleans, or `undefined`; `JsVal` models them with
strict-equality semantics (a number is never equal to a string, as with
the `===` used by `Map` lookups).
-/

inductive JsVal : Type where
  | undef : JsVal
  | num : Int → JsVal
  | str : String → JsVal
  | bool : Bool → JsVal
deriving DecidableEq, Repr

/-- A `go.ObjectData` record: a JavaScript object, field name to value.
Fields are unique; `getField` returns `undef` for an absent field, as
JavaScript property access does. -/
abbrev NodeRecord : Type := List (String × JsVal)

/-- JavaScript property read `r[p]` (`undefined` when absent). -/
def getField : NodeRecord → String → JsVal
  | [], _ => JsVal.undef
  | (f, v) :: rest, p => if f = p then v else getField rest p

/-- JavaScript property write `r[p] = v`: overwrite the existing field,
or append a new one. -/
def setField : NodeRecord → String → JsVal → NodeRecord
  | [], p, v => [(p, v)]
  | (f, w) :: rest, p, v =>
      if f = p then (f, v) :: rest else (f, w) :: setField rest p v

/-- The `key` property of a record (`n.key` in the source). -/
def recKey (r : NodeRecord) : JsVal := getField r "key"

/-- The `Map<go.Key, number>` used for `mapNodeKeyIdx`, as an association
list with `Map.set` replace-or-append semantics. -/
abbrev NodeMap : Type := List (JsVal × Nat)

/-- `Map.get`: `some` index, or `none` for JavaScript `undefined`. -/
def mapGet : NodeMap → JsVal → Option Nat
  | [], _ => none
  | (k0, v0) :: rest, k => if k0 = k then some v0 else mapGet rest k

/-- `Map.set`: replace the entry for an existing key, else append. -/
def mapSet : NodeMap → JsVal → Nat → NodeMap
  | [], k, v => [(k, v)]
  | (k0, v0) :: rest, k, v =>
      if k0 = k then (k0, v) :: rest else (k0, v0) :: mapSet rest k v

/-- `Map.clear`. -/
def mapClear (_ : NodeMap) : NodeMap := []

/-- The `forEach` loop body of `refreshNodeIndex`:
`nodeArr.forEach((n, idx) => map.set(n.key, idx))`, with `i` the index of
the first record of the remaining list. -/
def populateIndex : NodeMap → Nat → List NodeRecord → NodeMap
  | m, _, [] => m
  | m, i, n :: rest => populateIndex (mapSet m (recKey n) i) (i + 1) rest

/-- `App.refreshNodeIndex(nodeArr)`: clear `mapNodeKeyIdx`, then set
`n.key -> idx` for every record. -/
def refreshNodeIndex (m : NodeMap) (nodeArr : List NodeRecord) : NodeMap :=
  populateIndex (mapClear m) 0 nodeArr

/-- The `App` component: the React state (`nodeDataArray`, `modelData`,
`selectedData`, `skipsDiagramUpdate`) together with the instance field
`mapNodeKeyIdx`. -/
structure App : Type where
  nodeDataArray : List NodeRecord
  modelData : NodeRecord
  selectedData : Option NodeRecord
  skipsDiagramUpdate : Bool
  mapNodeKeyIdx : NodeMap
deriving DecidableEq, Repr

/-- The initial `nodeDataArray` from the `App` constructor. -/
def initialNodeDataArray : List NodeRecord :=
  [ [("key", JsVal.num 1), ("name", JsVal.str "Stella Payne Diaz"), ("title", JsVal.str "CEO")],
    [("key", JsVal.num 2), ("name", JsVal.str "Luke Warm"), ("title", JsVal.str "VP Marketing/Sales"), ("parent", JsVal.num 1)],
    [("key", JsVal.num 3), ("name", JsVal.str "Meg Meehan Hoffa"), ("title", JsVal.str "Sales"), ("parent", JsVal.num 2)],
    [("key", JsVal.num 4), ("name", JsVal.str "Peggy Flaming"), ("title", JsVal.str "VP Engineering"), ("parent", JsVal.num 1)],
    [("key", JsVal.num 5), ("name", JsVal.str "Saul Wellingood"), ("title", JsVal.str "Manufacturing"), ("parent", JsVal.num 4)],
    [("key", JsVal.num 6), ("name", JsVal.str "Al Ligori"), ("title", JsVal.str "Marketing"), ("parent", JsVal.num 2)],
    [("key", JsVal.num 7), ("name", JsVal.str "Dot Stubadd"), ("title", JsVal.str "Sales Rep"), ("parent", JsVal.num 3)],
    [("key", JsVal.num 8), ("name", JsVal.str "Les Ismore"), ("title", JsVal.str "Project Mgr"), ("parent", JsVal.num 5)],
    [("key", JsVal.num 9), ("name", JsVal.str "April Lynn Parris"), ("title", JsVal.str "Events Mgr"), ("parent", JsVal.num 6)],
    [("key", JsVal.num 10), ("name", JsVal.str "Xavier Breath"), ("title", JsVal.str "Engineering"), ("parent", JsVal.num 4)],
    [("key", JsVal.num 11), ("name", JsVal.str "Anita Hammer"), ("title", JsVal.str "Process"), ("parent", JsVal.num 5)],
    [("key", JsVal.num 12), ("name", JsVal.str "Billy Aiken"), ("title", JsVal.str "Software"), ("parent", JsVal.num 10)],
    [("key", JsVal.num 13), ("name", JsVal.str "Stan Wellback"), ("title", JsVal.str "Testing"), ("parent", JsVal.num 10)],
    [("key", JsVal.num 14), ("name", JsVal.str "Marge Innovera"), ("title", JsVal.str "Hardware"), ("parent", JsVal.num 10)],
    [("key", JsVal.num 15), ("name", JsVal.str "Evan Elpus"), ("title", JsVal.str "Quality"), ("parent", JsVal.num 5)],
    [("key", JsVal.num 16), ("name", JsVal.str "Lotta B. Essen"), ("title", JsVal.str "Sales Rep"), ("parent", JsVal.num 3)],
    [("key", JsVal.num 17), ("name", JsVal.str "Joaquin Closet"), ("title", JsVal.str "Wardrobe Assistant"), ("parent", JsVal.num 1)],
    [("key", JsVal.num 18), ("name", JsVal.str "Hannah Twomey"), ("title", JsVal.str "Engineering Assistant"), ("parent", JsVal.num 10), ("isAssistant", JsVal.bool true)] ]

/-- The `App` constructor: initial state, then
`refreshNodeIndex(this.state.nodeDataArray)` on a fresh map. -/
def initApp : App :=
  { nodeDataArray := initialNodeDataArray
    modelData := [("canRelink", JsVal.bool false)]
    selectedData := none
    skipsDiagramUpdate := false
    mapNodeKeyIdx := refreshNodeIndex [] initialNodeDataArray }

/-- The first selected part handed to `handleDiagramEvent`
(`e.subject.first()`): a `go.Node` carrying its key, or a non-node part
(a `go.Link` in this diagram). -/
inductive GoPart : Type where
  | node : JsVal → GoPart
  | link : GoPart
deriving DecidableEq, Repr

/-- `App.handleDiagramEvent(e)` for an event with name `name` whose
`subject.first()` is `sel` (`none` for an empty selection).  On
`ChangedSelection`: a selected node whose key resolves through
`mapNodeKeyIdx` replaces `selectedData` with the record at that index
(JavaScript would yield `undefined` for an out-of-range index, modelled
as `none`); an unresolvable node key or a non-node part changes nothing;
an empty selection clears `selectedData`.  Any other event name hits the
`default` branch. -/
def handleDiagramEvent (app : App) (name : String) (sel : Option GoPart) : App :=
  if name = "ChangedSelection" then
    match sel with
    | some (GoPart.node k) =>
        match mapGet app.mapNodeKeyIdx k with
        | some idx =>
            match app.nodeDataArray.get? idx with
            | some nd => { app with selectedData := some nd }
            | none => { app with selectedData := none }
        | none => app
    | some GoPart.link => app
    | none => { app with selectedData := none }
  else app

/-- `App.handleInputChange(path, value, isBlur)`.  The source reads
`draft.selectedData` and immediately assigns `data[path] = value`; when
`selectedData` is `null` that assignment throws a `TypeError`, modelled
as `none`.  Otherwise the working copy gets the field update; on blur the
working copy's key is looked up in `mapNodeKeyIdx` and, when found, the
record at that index is overwritten with the working copy and
`skipsDiagramUpdate` is reset to `false`. -/
def handleInputChange (app : App) (path : String) (value : String) (isBlur : Bool) :
    Option App :=
  match app.selectedData with
  | none => none
  | some sel =>
      let data := setField sel path (JsVal.str value)
      let app1 : App := { app with selectedData := some data }
      if isBlur then
        match mapGet app1.mapNodeKeyIdx (getField data "key") with
        | some idx =>
            some { app1 with
                    nodeDataArray := app1.nodeDataArray.set idx data
                    skipsDiagramUpdate := false }
        | none => some app1
      else some app1

/-- A node of the diagram as seen by the `SelectionDeleting` listener:
its data record and the named "boss" TextBlock, `some text` when
`findObject("boss")` finds it and `none` when it returns `null`. -/
structure BossNode : Type where
  data : NodeRecord
  boss : Option String
deriving DecidableEq, Repr

/-- The deleted part (`e.subject.first()`): a node with its tree children,
a link with its `toNode`, or some other part. -/
inductive DelPart : Type where
  | node : List BossNode → DelPart
  | link : BossNode → DelPart
  | other : DelPart
deriving DecidableEq, Repr

/-- The `while (it.next())` loop over a deleted node's tree children:
each child's "boss" TextBlock text is set to `""`, but a child whose
`findObject("boss")` is `null` makes the listener return at once.
Returns the updated children and whether the loop returned early. -/
def clearBossChildren : List BossNode → List BossNode × Bool
  | [] => ([], false)
  | c :: rest =>
      match c.boss with
      | none => (c :: rest, true)
      | some _ =>
          let res := clearBossChildren rest
          ({ c with boss := some "" } :: res.1, res.2)

/-- The `SelectionDeleting` listener: start the "clear boss" transaction,
clear the boss text of a deleted node's children (or of a deleted link's
`toNode`), and commit — unless a missing "boss" object made the handler
return before `commitTransaction`.  Returns the updated part and whether
the transaction was committed. -/
def selectionDeleting : Option DelPart → Option DelPart × Bool
  | some (DelPart.node children) =>
      let res := clearBossChildren children
      (some (DelPart.node res.1), !res.2)
  | some (DelPart.link child) =>
      match child.boss with
      | none => (some (DelPart.link child), false)
      | some _ => (some (DelPart.link { child with boss := some "" }), true)
  | some DelPart.other => (some DelPart.other, true)
  | none => (none, true)

/-- The index of the last record whose key is `k`; the `forEach` of
`refreshNodeIndex` makes later records override earlier ones, so this is
what the built map returns. -/
def lastIdxOf (k : JsVal) : List NodeRecord → Option Nat
  | [] => none
  | r :: rest =>
      match lastIdxOf k rest with
      | some j => some (j + 1)
      | none => if recKey r = k then some 0 else none

/-- A one-record store with that record selected, used to exercise the
edit synchronizer on concrete inputs. -/
def editApp : App :=
  { nodeDataArray := [[("key", JsVal.num 1), ("name", JsVal.str "A")]]
    modelData := [("canRelink", JsVal.bool false)]
    selectedData := some [("key", JsVal.num 1), ("name", JsVal.str "A")]
    skipsDiagramUpdate := true
    mapNodeKeyIdx := refreshNodeIndex [] [[("key", JsVal.num 1), ("name", JsVal.str "A")]] }

/-- Concrete children used to exercise the delete-cleanup listener. -/
def bossChildA : BossNode :=
  { data := [("key", JsVal.num 5), ("parent", JsVal.num 2)], boss := some "Boss: 2" }

def bossChildB : BossNode :=
  { data := [("key", JsVal.num 6), ("parent", JsVal.num 2)], boss := some "Boss: 2" }

def bossChildC : BossNode :=
  { data := [("key", JsVal.num 6), ("parent", JsVal.num 2)], boss := none }

def bossChildD : BossNode :=
  { data := [("key", JsVal.num 7), ("parent", JsVal.num 2)], boss := some "Boss: 2" }

/-! ### Basic lemmas about records and the key map -/

theorem getField_setField (r : NodeRecord) (p q : String) (v : JsVal) :
    getField (setField r p v) q = if q = p then v else getField r q := by
  induction r with
  | nil =>
      by_cases h : q = p
      · subst h; simp [setField, getField]
      · have h2 : ¬ p = q := fun hh => h hh.symm
        simp [setField, getField, h, h2]
  | cons fw rest ih =>
      obtain ⟨f, w⟩ := fw
      by_cases hfp : f = p
      · subst hfp
        by_cases h : q = f
        · subst h; simp [setField, getField]
        · have h2 : ¬ f = q := fun hh => h hh.symm
          simp [setField, getField, h, h2]
      · by_cases hfq : f = q
        · have hqp : ¬ q = p := fun hh => hfp (hfq.trans hh)
          simp [setField, getField, hfp, hfq, hqp]
        · simp [setField, getField, hfp, hfq, ih]

theorem mapGet_mapSet (m : NodeMap) (k k2 : JsVal) (v : Nat) :
    mapGet (mapSet m k v) k2 = if k2 = k then some v else mapGet m k2 := by
  induction m with
  | nil =>
      by_cases h : k2 = k
      · subst h; simp [mapSet, mapGet]
      · have h2 : ¬ k = k2 := fun hh => h hh.symm
        simp [mapSet, mapGet, h, h2]
  | cons kv rest ih =>
      obtain ⟨k0, v0⟩ := kv
      by_cases hk0 : k0 = k
      · subst hk0
        by_cases h : k2 = k0
        · subst h; simp [mapSet, mapGet]
        · have h2 : ¬ k0 = k2 := fun hh => h hh.symm
          simp [mapSet, mapGet, h, h2]
      · by_cases h2 : k0 = k2
        · have hk2 : ¬ k2 = k := fun hh => hk0 (h2.trans hh)
          simp [mapSet, mapGet, hk0, h2, hk2]
        · simp [mapSet, mapGet, hk0, h2, ih]

theorem mapGet_populateIndex (arr : List NodeRecord) :
    ∀ (m : NodeMap) (i : Nat) (k : JsVal),
      mapGet (populateIndex m i arr) k =
        match lastIdxOf k arr with
        | some j => some (i + j)
        | none => mapGet m k := by
  induction arr with
  | nil => intro m i k; rfl
  | cons r rest ih =>
      intro m i k
      have step :
          mapGet (populateIndex (mapSet m (recKey r) i) (i + 1) rest) k =
            match lastIdxOf k rest with
            | some j => some (i + 1 + j)
            | none => mapGet (mapSet m (recKey r) i) k := ih _ _ _
      show mapGet (populateIndex (mapSet m (recKey r) i) (i + 1) rest) k = _
      rw [step]
      cases hrest : lastIdxOf k rest with
      | some j =>
          have : i + 1 + j = i + (j + 1) := by omega
          simp [lastIdxOf, hrest, this]
      | none =>
          rw [mapGet_mapSet]
          by_cases hk : k = recKey r
          · subst hk
            simp [lastIdxOf, hrest]
          · have h2 : ¬ recKey r = k := fun hh => hk hh.symm
            simp [lastIdxOf, hrest, hk, h2]

theorem mapGet_refreshNodeIndex (m : NodeMap) (arr : List NodeRecord) (k : JsVal) :
    mapGet (refreshNodeIndex m arr) k = lastIdxOf k arr := by
  unfold refreshNodeIndex
  rw [mapGet_populateIndex]
  cases h : lastIdxOf k arr <;> simp [mapClear, mapGet]

theorem lastIdxOf_get? (arr : List NodeRecord) :
    ∀ (k : JsVal) (j : Nat), lastIdxOf k arr = some j →
      (arr.get? j).map recKey = some k := by
  induction arr with
  | nil => intro k j h; simp [lastIdxOf] at h
  | cons r rest ih =>
      intro k j h
      cases hrest : lastIdxOf k rest with
      | some j0 =>
          have : some (j0 + 1) = some j := by
            rw [← h]; simp [lastIdxOf, hrest]
          obtain rfl : j0 + 1 = j := Option.some.inj this
          simpa using ih k j0 hrest
      | none =>
          have h2 : (if recKey r = k then some 0 else none) = some j := by
            rw [← h]; simp [lastIdxOf, hrest]
          by_cases hk : recKey r = k
          · rw [if_pos hk] at h2
            obtain rfl : (0 : Nat) = j := Option.some.inj h2
            simpa using hk
          · rw [if_neg hk] at h2
            exact absurd h2 (by simp)

theorem lastIdxOf_isSome_of_mem (arr : List NodeRecord) :
    ∀ k : JsVal, k ∈ arr.map recKey → (lastIdxOf k arr).isSome = true := by
  induction arr with
  | nil => intro k h; simp at h
  | cons r rest ih =>
      intro k h
      cases hrest : lastIdxOf k rest with
      | some j => simp [lastIdxOf, hrest]
      | none =>
          rcases (by simpa using h : k = recKey r ∨ ∃ a ∈ rest, recKey a = k) with hk | hk
          · simp [lastIdxOf, hrest, hk.symm]
          · have := ih k (List.mem_map.mpr hk)
            rw [hrest] at this
            simp at this

theorem lastIdxOf_eq_none_of_not_mem (arr : List NodeRecord) :
    ∀ k : JsVal, ¬ k ∈ arr.map recKey → lastIdxOf k arr = none := by
  induction arr with
  | nil => intro k _; rfl
  | cons r rest ih =>
      intro k h
      have hk : ¬ recKey r = k := fun hh => h (by simp [hh])
      have hrest : ¬ k ∈ rest.map recKey := fun hh => h (by simp [hh])
      simp [lastIdxOf, ih k hrest, hk]

theorem lastIdxOf_of_nodup (arr : List NodeRecord) :
    ∀ (k : JsVal) (p : Nat), (arr.map recKey).Nodup →
      (arr.get? p).map recKey = some k → lastIdxOf k arr = some p := by
  induction arr with
  | nil => intro k p _ h; simp at h
  | cons r rest ih =>
      intro k p hnodup h
      have hcons : (recKey r :: rest.map recKey).Nodup := by
        rw [List.map_cons] at hnodup; exact hnodup
      have hnotin : ¬ recKey r ∈ rest.map recKey := (List.nodup_cons.mp hcons).1
      have hnd : (rest.map recKey).Nodup := (List.nodup_cons.mp hcons).2
      cases p with
      | zero =>
          have hk : recKey r = k := by simpa using h
          have hnone : lastIdxOf k rest = none :=
            lastIdxOf_eq_none_of_not_mem rest k (hk ▸ hnotin)
          simp [lastIdxOf, hnone, hk]
      | succ q =>
          have hq : (rest.get? q).map recKey = some k := by simpa using h
          simp [lastIdxOf, ih k q hnd hq]

theorem lt_length_of_get?_eq_some {α : Type} :
    ∀ (l : List α) (i : Nat) (a : α), l.get? i = some a → i < l.length := by
  intro l
  induction l with
  | nil => intro i a h; simp at h
  | cons x rest ih =>
      intro i a h
      cases i with
      | zero => simp
      | succ j =>
          have := ih j a (by simpa using h)
          simpa using Nat.succ_lt_succ this

theorem get?_set_self {α : Type} :
    ∀ (l : List α) (i : Nat) (a : α), i < l.length → (l.set i a).get? i = some a := by
  intro l
  induction l with
  | nil => intro i a h; simp at h
  | cons x rest ih =>
      intro i a h
      cases i with
      | zero => rfl
      | succ j =>
          have hj : j < rest.length := by simpa using h
          simpa using ih j a hj

/-! ### Lemmas about the delete-cleanup loop -/

theorem clearBossChildren_all_some (cs : List BossNode)
    (h : ∀ c ∈ cs, c.boss.isSome = true) :
    clearBossChildren cs = (cs.map (fun c => { c with boss := some "" }), false) := by
  induction cs with
  | nil => rfl
  | cons c rest ih =>
      obtain ⟨t, ht⟩ := Option.isSome_iff_exists.mp (h c (by simp))
      have hrest := ih (fun c0 hc0 => h c0 (by simp [hc0]))
      simp [clearBossChildren, ht, hrest]

theorem clearBossChildren_append (pre : List BossNode) (c : BossNode) (post : List BossNode)
    (hc : c.boss = none) (hpre : ∀ c0 ∈ pre, c0.boss.isSome = true) :
    clearBossChildren (pre ++ c :: post)
      = ((pre.map fun c0 => { c0 with boss := some "" }) ++ c :: post, true) := by
  induction pre with
  | nil => simp [clearBossChildren, hc]
  | cons p rest ih =>
      obtain ⟨t, ht⟩ := Option.isSome_iff_exists.mp (hpre p (by simp))
      have hrest := ih (fun c0 hc0 => hpre c0 (by simp [hc0]))
      simp [clearBossChildren, ht, hrest]

/-! ### Claim theorems -/

/-- C3: an edit call with `isFinal = false` arriving while a selection is
active sets the working copy's field at `fieldPath` to the new value and
leaves every record of the authoritative `nodeDataArray` (and everything
else in the state except `selectedData`) unchanged. -/
theorem inputChange_live_edit_touches_only_working_copy
    (app : App) (r : NodeRecord) (path value : String)
    (hsel : app.selectedData = some r) :
    handleInputChange app path value false
      = some { app with selectedData := some (setField r path (JsVal.str value)) }
    ∧ getField (setField r path (JsVal.str value)) path = JsVal.str value := by
  constructor
  · simp [handleInputChange, hsel]
  · rw [getField_setField]; simp

/-- Witness for C3: a live edit of `name` to `Bob` on the one-record
store updates only the selected working copy. -/
theorem inputChange_live_edit_touches_only_working_copy_witness :
    handleInputChange editApp "name" "Bob" false
      = some { editApp with
                selectedData :=
                  some (setField [("key", JsVal.num 1), ("name", JsVal.str "A")]
                    "name" (JsVal.str "Bob")) }
    ∧ getField (setField [("key", JsVal.num 1), ("name", JsVal.str "A")]
        "name" (JsVal.str "Bob")) "name" = JsVal.str "Bob" :=
  inputChange_live_edit_touches_only_working_copy editApp
    [("key", JsVal.num 1), ("name", JsVal.str "A")] "name" "Bob" rfl

/-- C4 counterexample: with no active selection the edit handler does not
complete normally — `data[path] = value` dereferences `null` and the
modelled execution aborts (`none`), refuting the claim that the handler
treats the edit as inapplicable and returns. -/
theorem inputChange_no_selection_counterexample :
    initApp.selectedData = none
    ∧ handleInputChange initApp "name" "Bob" true = none :=
  ⟨rfl, rfl⟩

/-- C4 as amended: whenever `selectedData` is none, `handleInputChange`
throws (the modelled execution yields `none`, the `TypeError` of the
`null` property write) instead of completing normally, for every path,
value and finality flag. -/
theorem inputChange_no_selection_throws
    (app : App) (path value : String) (isBlur : Bool)
    (h : app.selectedData = none) :
    handleInputChange app path value isBlur = none := by
  simp [handleInputChange, h]

/-- Witness for the amended C4 at a concrete input. -/
theorem inputChange_no_selection_throws_witness :
    handleInputChange initApp "title" "X" false = none :=
  inputChange_no_selection_throws initApp "title" "X" false rfl

/-- C5: a committing edit (`isFinal = true`) whose working copy's key is
not found in `mapNodeKeyIdx` only updates the working copy: the result is
`some` (no error), and `nodeDataArray`, `skipsDiagramUpdate`,
`mapNodeKeyIdx` and `modelData` are exactly as before. -/
theorem inputChange_commit_missing_key_noop
    (app : App) (r : NodeRecord) (path value : String)
    (hsel : app.selectedData = some r)
    (hmiss : mapGet app.mapNodeKeyIdx
        (getField (setField r path (JsVal.str value)) "key") = none) :
    handleInputChange app path value true
      = some { app with selectedData := some (setField r path (JsVal.str value)) } := by
  simp [handleInputChange, hsel, hmiss]

/-- Witness for C5: committing an edit that rewrote the `key` field to a
string leaves the store untouched because the new key is absent from the
index. -/
theorem inputChange_commit_missing_key_noop_witness :
    handleInputChange editApp "key" "2" true
      = some { editApp with
                selectedData :=
                  some (setField [("key", JsVal.num 1), ("name", JsVal.str "A")]
                    "key" (JsVal.str "2")) } :=
  inputChange_commit_missing_key_noop editApp
    [("key", JsVal.num 1), ("name", JsVal.str "A")] "key" "2" rfl (by decide)

/-- C9: a `ChangedSelection` whose first selected part is a node with a
key absent from `mapNodeKeyIdx` leaves the whole application state
unchanged and completes without error. -/
theorem changedSelection_missing_key_ignored
    (app : App) (k : JsVal)
    (h : mapGet app.mapNodeKeyIdx k = none) :
    handleDiagramEvent app "ChangedSelection" (some (GoPart.node k)) = app := by
  simp [handleDiagramEvent, h]

/-- Witness for C9: selecting a node with key 99, absent from the
initial store, changes nothing. -/
theorem changedSelection_missing_key_ignored_witness :
    handleDiagramEvent initApp "ChangedSelection" (some (GoPart.node (JsVal.num 99)))
      = initApp :=
  changedSelection_missing_key_ignored initApp (JsVal.num 99) (by decide)

/-- C1: on a `ChangedSelection` notification, with `mapNodeKeyIdx` the
index built from the current `nodeDataArray`: selecting a node whose key
`k` resolves to index `idx` makes `selectedData` the store's record at
`idx`, whose key is `k` (and the store itself is untouched); an empty
selection makes `selectedData` none; selecting a link-kind (non-node)
part leaves the whole state exactly as it was. -/
theorem changedSelection_resolves_node_key (app : App) (k : JsVal) (idx : Nat)
    (hmap : app.mapNodeKeyIdx = refreshNodeIndex [] app.nodeDataArray)
    (hidx : mapGet app.mapNodeKeyIdx k = some idx) :
    ((handleDiagramEvent app "ChangedSelection" (some (GoPart.node k))).selectedData
        = app.nodeDataArray.get? idx
      ∧ (app.nodeDataArray.get? idx).map recKey = some k
      ∧ (handleDiagramEvent app "ChangedSelection" (some (GoPart.node k))).nodeDataArray
        = app.nodeDataArray)
    ∧ (handleDiagramEvent app "ChangedSelection" none).selectedData = none
    ∧ handleDiagramEvent app "ChangedSelection" (some GoPart.link) = app := by
  have hlast : lastIdxOf k app.nodeDataArray = some idx := by
    rw [hmap, mapGet_refreshNodeIndex] at hidx; exact hidx
  have harr : (app.nodeDataArray.get? idx).map recKey = some k :=
    lastIdxOf_get? app.nodeDataArray k idx hlast
  obtain ⟨r, hr⟩ : ∃ r, app.nodeDataArray.get? idx = some r := by
    cases h : app.nodeDataArray.get? idx with
    | some r => exact ⟨r, rfl⟩
    | none => rw [h] at harr; simp at harr
  have hr2 : app.nodeDataArray[idx]? = some r := by
    rw [← List.get?_eq_getElem?]; exact hr
  refine ⟨⟨?_, harr, ?_⟩, ?_, ?_⟩
  · simp [handleDiagramEvent, hidx, hr2]
  · simp [handleDiagramEvent, hidx, hr2]
  · simp [handleDiagramEvent]
  · simp [handleDiagramEvent]

/-- Witness for C1: selecting key 3 in the initial store resolves to the
record at index 2; empty and link selections behave as claimed. -/
theorem changedSelection_resolves_node_key_witness :
    ((handleDiagramEvent initApp "ChangedSelection"
          (some (GoPart.node (JsVal.num 3)))).selectedData
        = initApp.nodeDataArray.get? 2
      ∧ (initApp.nodeDataArray.get? 2).map recKey = some (JsVal.num 3)
      ∧ (handleDiagramEvent initApp "ChangedSelection"
          (some (GoPart.node (JsVal.num 3)))).nodeDataArray
        = initApp.nodeDataArray)
    ∧ (handleDiagramEvent initApp "ChangedSelection" none).selectedData = none
    ∧ handleDiagramEvent initApp "ChangedSelection" (some GoPart.link) = initApp :=
  changedSelection_resolves_node_key initApp (JsVal.num 3) 2 rfl (by decide)

/-- C2 counterexample: with a selection active on key 1 (present in the
index at position 0), the committing edit `("key", "2", true)` completes
but leaves the authoritative record at position 0 untouched — its `key`
field is still `1`, not the new value — because the commit looks the
index up with the working copy's already-edited key, which no longer
matches.  This refutes the claim for `fieldPath = "key"`. -/
theorem inputChange_commit_key_edit_counterexample :
    editApp.selectedData = some [("key", JsVal.num 1), ("name", JsVal.str "A")]
    ∧ mapGet editApp.mapNodeKeyIdx (JsVal.num 1) = some 0
    ∧ (handleInputChange editApp "key" "2" true).map App.nodeDataArray
        = some [[("key", JsVal.num 1), ("name", JsVal.str "A")]]
    ∧ JsVal.num 1 ≠ JsVal.str "2" :=
  ⟨rfl, by decide, rfl, by decide⟩

/-- C2 as amended: for a committing edit whose `fieldPath` is not the
`key` field itself, with the index built from the current store and the
selection's key `k` present at position `p`: the record at `p` is
overwritten with the working copy, whose field at `fieldPath` is the new
value, `skipsDiagramUpdate` is reset, the index is untouched, and the
record now at `p` still has key `k`. -/
theorem inputChange_commit_overwrites_record
    (app : App) (r : NodeRecord) (k : JsVal) (p : Nat) (path value : String)
    (hsel : app.selectedData = some r)
    (hkey : getField r "key" = k)
    (hpath : path ≠ "key")
    (hmap : app.mapNodeKeyIdx = refreshNodeIndex [] app.nodeDataArray)
    (hp : mapGet app.mapNodeKeyIdx k = some p) :
    handleInputChange app path value true
      = some { app with
                selectedData := some (setField r path (JsVal.str value))
                nodeDataArray := app.nodeDataArray.set p (setField r path (JsVal.str value))
                skipsDiagramUpdate := false }
    ∧ (app.nodeDataArray.set p (setField r path (JsVal.str value))).get? p
        = some (setField r path (JsVal.str value))
    ∧ getField (setField r path (JsVal.str value)) path = JsVal.str value
    ∧ getField (setField r path (JsVal.str value)) "key" = k := by
  have hkey2 : getField (setField r path (JsVal.str value)) "key" = k := by
    rw [getField_setField, if_neg (fun hh => hpath hh.symm), hkey]
  have hlast : lastIdxOf k app.nodeDataArray = some p := by
    rw [hmap, mapGet_refreshNodeIndex] at hp; exact hp
  have harr : (app.nodeDataArray.get? p).map recKey = some k :=
    lastIdxOf_get? app.nodeDataArray k p hlast
  obtain ⟨r0, hr0⟩ : ∃ r0, app.nodeDataArray.get? p = some r0 := by
    cases h : app.nodeDataArray.get? p with
    | some r0 => exact ⟨r0, rfl⟩
    | none => rw [h] at harr; simp at harr
  have hlen : p < app.nodeDataArray.length := lt_length_of_get?_eq_some _ p r0 hr0
  refine ⟨?_, get?_set_self _ p _ hlen, ?_, hkey2⟩
  · simp [handleInputChange, hsel, hkey2, hp]
  · rw [getField_setField]; simp

/-- Witness for the amended C2: committing `("name", "Bob", true)` with
key 1 selected overwrites the record at position 0. -/
theorem inputChange_commit_overwrites_record_witness :
    handleInputChange editApp "name" "Bob" true
      = some { editApp with
                selectedData :=
                  some (setField [("key", JsVal.num 1), ("name", JsVal.str "A")]
                    "name" (JsVal.str "Bob"))
                nodeDataArray :=
                  editApp.nodeDataArray.set 0
                    (setField [("key", JsVal.num 1), ("name", JsVal.str "A")]
                      "name" (JsVal.str "Bob"))
                skipsDiagramUpdate := false }
    ∧ (editApp.nodeDataArray.set 0
          (setField [("key", JsVal.num 1), ("name", JsVal.str "A")]
            "name" (JsVal.str "Bob"))).get? 0
        = some (setField [("key", JsVal.num 1), ("name", JsVal.str "A")]
            "name" (JsVal.str "Bob"))
    ∧ getField (setField [("key", JsVal.num 1), ("name", JsVal.str "A")]
        "name" (JsVal.str "Bob")) "name" = JsVal.str "Bob"
    ∧ getField (setField [("key", JsVal.num 1), ("name", JsVal.str "A")]
        "name" (JsVal.str "Bob")) "key" = JsVal.num 1 :=
  inputChange_commit_overwrites_record editApp
    [("key", JsVal.num 1), ("name", JsVal.str "A")] (JsVal.num 1) 0 "name" "Bob"
    rfl rfl (by decide) rfl (by decide)

/-- C6: after the index is rebuilt from a collection with pairwise
distinct keys, every key `k` of the collection resolves through the
rebuilt index to a position whose record has key `k`. -/
theorem refreshNodeIndex_resolves_present_key
    (prev : NodeMap) (arr : List NodeRecord) (k : JsVal)
    (_hnodup : (arr.map recKey).Nodup)
    (hmem : k ∈ arr.map recKey) :
    (mapGet (refreshNodeIndex prev arr) k).isSome = true
    ∧ (mapGet (refreshNodeIndex prev arr) k).bind
        (fun p => (arr.get? p).map recKey) = some k := by
  rw [mapGet_refreshNodeIndex]
  have hsome := lastIdxOf_isSome_of_mem arr k hmem
  obtain ⟨j, hj⟩ := Option.isSome_iff_exists.mp hsome
  rw [hj]
  exact ⟨rfl, by simpa using lastIdxOf_get? arr k j hj⟩

/-- Witness for C6: rebuilding from the initial store over a stale
previous map resolves key 5 to a record whose key is 5. -/
theorem refreshNodeIndex_resolves_present_key_witness :
    (mapGet (refreshNodeIndex [(JsVal.num 99, 7)] initialNodeDataArray)
        (JsVal.num 5)).isSome = true
    ∧ (mapGet (refreshNodeIndex [(JsVal.num 99, 7)] initialNodeDataArray)
        (JsVal.num 5)).bind
        (fun p => (initialNodeDataArray.get? p).map recKey) = some (JsVal.num 5) :=
  refreshNodeIndex_resolves_present_key [(JsVal.num 99, 7)] initialNodeDataArray
    (JsVal.num 5) (by decide) (by decide)

/-- C7: after a rebuild over a collection with distinct keys, the index
maps `k` to `p` exactly when the collection's record at `p` has key `k`
(the map is precisely key-to-position), and any key absent from the
current collection — in particular one left over from a previously
indexed collection — is absent from the index. -/
theorem refreshNodeIndex_exact_characterization
    (prev : NodeMap) (arr : List NodeRecord) (k : JsVal) (p : Nat)
    (hnodup : (arr.map recKey).Nodup) :
    (mapGet (refreshNodeIndex prev arr) k = some p
        ↔ (arr.get? p).map recKey = some k)
    ∧ (¬ k ∈ arr.map recKey → mapGet (refreshNodeIndex prev arr) k = none) := by
  rw [mapGet_refreshNodeIndex]
  exact ⟨⟨fun h => lastIdxOf_get? arr k p h,
      fun h => lastIdxOf_of_nodup arr k p hnodup h⟩,
    fun h => lastIdxOf_eq_none_of_not_mem arr k h⟩

/-- Witness for C7: key 7, indexed in a previous collection, is neither
mapped to position 0 nor present at all after a rebuild over a two-record
collection without it. -/
theorem refreshNodeIndex_exact_characterization_witness :
    (mapGet (refreshNodeIndex [(JsVal.num 7, 0)]
          [[("key", JsVal.num 1)], [("key", JsVal.num 2)]]) (JsVal.num 7) = some 0
        ↔ ([[("key", JsVal.num 1)], [("key", JsVal.num 2)]].get? 0).map recKey
            = some (JsVal.num 7))
    ∧ (¬ JsVal.num 7 ∈ [[("key", JsVal.num 1)], [("key", JsVal.num 2)]].map recKey →
        mapGet (refreshNodeIndex [(JsVal.num 7, 0)]
          [[("key", JsVal.num 1)], [("key", JsVal.num 2)]]) (JsVal.num 7) = none) :=
  refreshNodeIndex_exact_characterization [(JsVal.num 7, 0)]
    [[("key", JsVal.num 1)], [("key", JsVal.num 2)]] (JsVal.num 7) 0 (by decide)

/-- C8: when a node with tree children is deleted and each child carries
the named "boss" display object, the listener clears every child's
displayed boss text to the empty string, leaves every child's data record
— in particular its structural `parent` key field — unchanged, and
commits the "clear boss" transaction. -/
theorem selectionDeleting_clears_children_boss (cs : List BossNode)
    (h : ∀ c ∈ cs, c.boss.isSome = true) :
    selectionDeleting (some (DelPart.node cs))
      = (some (DelPart.node (cs.map (fun c => { c with boss := some "" }))), true)
    ∧ (cs.map (fun c => { c with boss := some "" })).map BossNode.data
        = cs.map BossNode.data := by
  constructor
  · simp [selectionDeleting, clearBossChildren_all_some cs h]
  · rw [List.map_map]
    have hf : BossNode.data ∘ (fun c => ({ c with boss := some "" } : BossNode))
        = BossNode.data := by
      funext c; rfl
    rw [hf]

/-- Witness for C8: deleting a parent whose two children (keys 5 and 6,
`parent` field 2) both have a boss display object clears both displayed
texts, keeps both data records, and commits. -/
theorem selectionDeleting_clears_children_boss_witness :
    selectionDeleting (some (DelPart.node [bossChildA, bossChildB]))
      = (some (DelPart.node
          ([bossChildA, bossChildB].map (fun c => { c with boss := some "" }))), true)
    ∧ ([bossChildA, bossChildB].map (fun c => { c with boss := some "" })).map
          BossNode.data
        = [bossChildA, bossChildB].map BossNode.data :=
  selectionDeleting_clears_children_boss [bossChildA, bossChildB] (by decide)

/-- C10: if, while the listener iterates a deleted node's children, it
reaches a child without a named "boss" object (after a prefix of
children that do have one), it returns at that child: that child and all
children after it are left exactly as they were, and the "clear boss"
transaction is never committed. -/
theorem selectionDeleting_missing_boss_aborts
    (pre : List BossNode) (c : BossNode) (post : List BossNode)
    (hc : c.boss = none)
    (hpre : ∀ c0 ∈ pre, c0.boss.isSome = true) :
    selectionDeleting (some (DelPart.node (pre ++ c :: post)))
      = (some (DelPart.node
          ((pre.map fun c0 => { c0 with boss := some "" }) ++ c :: post)), false) := by
  simp [selectionDeleting, clearBossChildren_append pre c post hc hpre]

/-- Witness for C10: with the second of three children lacking a boss
object, only the first child is cleared, the later ones are left as they
were, and the transaction is not committed. -/
theorem selectionDeleting_missing_boss_aborts_witness :
    selectionDeleting (some (DelPart.node ([bossChildA] ++ bossChildC :: [bossChildD])))
      = (some (DelPart.node
          (([bossChildA].map fun c0 => { c0 with boss := some "" })
            ++ bossChildC :: [bossChildD])), false) :=
  selectionDeleting_missing_boss_aborts [bossChildA] bossChildC [bossChildD]
    rfl (by decide)
